import Mathlib

/-!
# Verification of the Aerie Part Management client request/cache layer

A shallow embedding, in Lean 4, of the parts of the Aerie-Part-Management
frontend that its specification talks about:

* the blob-URL cache and the in-flight request de-duplication of
  `src/core/api/apiErrorHandler.js` (class `BlobUrlCache`,
  `getPartModelBlobUrl`, `getPartFileBlobUrl`, `getPartViewBlobUrl`);
* the three-state sort cycle of the tabs module (`updateSortState`,
  `sortParts`, `getSortValue`);
* the CNC tab's priority pre-sort (`prioritizeParts`, `renderCNC`,
  `applySorting`, and the helpers `filterParts` / `sortArrayByKey`);
* the rate-limited auth check of `src/core/auth/auth.js` (`checkAuthStatus`);
* the upload pre-validation of the file-validation module
  (`getFileExtension`, `isFileExtensionAllowed`, `isFileSizeAllowed`,
  `validateFile`);
* the wipe-confirmation gate of `src/features/parts/wipeActions.js`
  (`handleWipeNext`, `wipeAllParts`).

JavaScript `Map`s are embedded as association lists in insertion order
(`Map.set` on an existing key replaces the value in place and keeps the
key's position; otherwise it appends).  JavaScript's single-threaded
cooperative scheduling makes each synchronous prefix of an async function
atomic, so the request flows are embedded as step functions on explicit
state.  Timestamps (`Date.now()`) are naturals passed explicitly.
-/

namespace Aerie

/-! ## JavaScript primitives -/

/-- JS `a || b` on strings: the empty string is falsy. -/
def jsOr (a b : String) : String := if a = "" then b else a

/-- JS `String.prototype.includes`: substring test. -/
def strContains (s sub : String) : Bool :=
  (List.range (s.length + 1)).any (fun i => sub.data.isPrefixOf (s.data.drop i))

/-- JS `String.prototype.toLowerCase`, embedded character-wise (the
strings the application compares are ASCII). -/
def jsToLower (s : String) : String :=
  (s.data.map Char.toLower).asString

/-- JS `<` on strings: lexicographic comparison by code units, embedded
structurally on the character lists. -/
def strLtList : List Char → List Char → Bool
  | [], [] => false
  | [], _ :: _ => true
  | _ :: _, [] => false
  | a :: as, b :: bs =>
    if a < b then true
    else if b < a then false
    else strLtList as bs

/-- JS `a < b` on strings. -/
def strLt (a b : String) : Bool := strLtList a.data b.data

/-- JS `String.prototype.split(sep)` for a single-character separator,
embedded on the character list: `"a..b".split(".")` is `["a", "", "b"]`
and `"".split(".")` is `[""]`. -/
def splitOnChar (c : Char) : List Char → List (List Char)
  | [] => [[]]
  | x :: xs =>
    let r := splitOnChar c xs
    if x = c then [] :: r
    else
      match r with
      | [] => [[x]]
      | h :: t => (x :: h) :: t

/-- One step of a stable insertion sort: insert `x` after every element it
does not strictly precede.  `lt a b` embeds `comparator(a, b) < 0`. -/
def stableInsert {α : Type} (lt : α → α → Bool) (x : α) : List α → List α
  | [] => [x]
  | y :: ys => if lt x y then x :: y :: ys else y :: stableInsert lt x ys

/-- Embedding of JS `Array.prototype.sort(comparator)` (stable since
ES2019) for a consistent comparator: a stable sort putting `a` before `b`
exactly when `comparator(a, b) < 0` or when they tie in original order. -/
def stableSort {α : Type} (lt : α → α → Bool) (l : List α) : List α :=
  l.foldl (fun acc x => stableInsert lt x acc) []

/-! ## Association-list embedding of a JS `Map` with `Nat` keys -/

/-- `Map.prototype.get`: the value of the first (only) entry with key `k`. -/
def alistGet {β : Type} (m : List (Nat × β)) (k : Nat) : Option β :=
  (m.find? (fun p => p.1 == k)).map (·.2)

/-- `Map.prototype.set`: replace in place if the key exists, else append. -/
def alistSet {β : Type} (m : List (Nat × β)) (k : Nat) (v : β) : List (Nat × β) :=
  if m.any (fun p => p.1 == k) then
    m.map (fun p => if p.1 == k then (k, v) else p)
  else
    m ++ [(k, v)]

/-- `Map.prototype.delete`. -/
def alistDelete {β : Type} (m : List (Nat × β)) (k : Nat) : List (Nat × β) :=
  m.filter (fun p => p.1 != k)

/-! ## `BlobUrlCache` (apiErrorHandler.js, lines 84-151)

```js
const MAX_CACHE_SIZE = 50; // Maximum number of cached blob URLs
const CACHE_EXPIRY_MS = 1800000; // 30 minutes
```
Cache keys are part ids (numbers), values are `\x7b url, timestamp \x7d`
records.  `URL.revokeObjectURL` calls are made observable by returning the
list of released blob URLs from each operation. -/

def MAX_CACHE_SIZE : Nat := 50

def CACHE_EXPIRY_MS : Nat := 1800000

structure CacheEntry where
  url : String
  timestamp : Nat
deriving DecidableEq, Repr

structure BlobUrlCache where
  cache : List (Nat × CacheEntry)
  maxSize : Nat
  expiryMs : Nat
deriving DecidableEq, Repr

/-- `new BlobUrlCache()` with the default arguments. -/
def BlobUrlCache.new : BlobUrlCache :=
  { cache := [], maxSize := MAX_CACHE_SIZE, expiryMs := CACHE_EXPIRY_MS }

/-- ```js
revoke(key) {
    const entry = this.cache.get(key);
    if (entry?.url) { URL.revokeObjectURL(entry.url); }
    this.cache.delete(key);
}
```
The second component lists the blob URLs released (`entry?.url` is truthy
exactly when the entry exists and its url is a non-empty string). -/
def BlobUrlCache.revoke (c : BlobUrlCache) (key : Nat) : BlobUrlCache × List String :=
  let rev :=
    match alistGet c.cache key with
    | some e => if e.url = "" then [] else [e.url]
    | none => []
  ({ c with cache := alistDelete c.cache key }, rev)

/-- ```js
set(key, blobUrl) {
    if (this.cache.size >= this.maxSize) {
        const firstKey = this.cache.keys().next().value;
        this.revoke(firstKey);
    }
    this.cache.set(key, { url: blobUrl, timestamp: Date.now() });
}
```
`Date.now()` is the explicit `now` argument.  When the cache is empty and
`maxSize = 0`, `firstKey` is `undefined` and `revoke(undefined)` is a
no-op, which the `none` branch mirrors. -/
def BlobUrlCache.set (c : BlobUrlCache) (key : Nat) (blobUrl : String) (now : Nat) :
    BlobUrlCache × List String :=
  let (c1, rev) :=
    if c.maxSize ≤ c.cache.length then
      match c.cache.head? with
      | some kv => c.revoke kv.1
      | none => (c, [])
    else (c, [])
  ({ c1 with cache := alistSet c1.cache key ⟨blobUrl, now⟩ }, rev)

/-- ```js
get(key) {
    const entry = this.cache.get(key);
    if (!entry) return null;
    if (Date.now() - entry.timestamp > this.expiryMs) {
        this.revoke(key);
        return null;
    }
    return entry.url;
}
```
`now - entry.timestamp > expiryMs` over JS numbers (which may go negative)
is `expiryMs + timestamp < now` over naturals. -/
def BlobUrlCache.get (c : BlobUrlCache) (key : Nat) (now : Nat) :
    Option String × BlobUrlCache × List String :=
  match alistGet c.cache key with
  | none => (none, c, [])
  | some e =>
    if c.expiryMs + e.timestamp < now then
      let (c1, rev) := c.revoke key
      (none, c1, rev)
    else (some e.url, c, [])

/-- The loop body of `clear()`: revoke each key of the snapshot in turn
(deleting the visited key does not disturb the iteration over the rest). -/
def clearKeys (c : BlobUrlCache) : List Nat → BlobUrlCache × List String
  | [] => (c, [])
  | k :: ks =>
    let (c1, r1) := c.revoke k
    let (c2, r2) := clearKeys c1 ks
    (c2, r1 ++ r2)

/-- ```js
clear() {
    for (const key of this.cache.keys()) { this.revoke(key); }
}
``` -/
def BlobUrlCache.clear (c : BlobUrlCache) : BlobUrlCache × List String :=
  clearKeys c (c.cache.map (·.1))

/-! ## `getPartModelBlobUrl` (apiErrorHandler.js, lines 349-397)

```js
const cadModelCache = new BlobUrlCache();
const pendingModelRequests = new Map();
```
The function checks `cadModelCache.get(partId)`, then
`pendingModelRequests.get(partId)`, and otherwise starts an async request
whose synchronous prefix performs the `fetch` call; the request promise is
stored under `partId`, and its `finally` clause deletes the entry before
the promise settles for its consumers.  Under JS's single-threaded
scheduling each caller's synchronous path (`invokeModel` below) is atomic,
and the settlement of the request body (`settleModel` below) is atomic. -/

structure ModelFetchState where
  cadModelCache : BlobUrlCache
  pendingModelRequests : List (Nat × Nat)
  fetchCount : Nat
  nextPromise : Nat
deriving DecidableEq, Repr

/-- What one call to `getPartModelBlobUrl` hands back synchronously:
a cached URL, or a promise id (an existing pending one, or a fresh one
whose fetch was just started). -/
inductive CallOutcome
  | cachedHit (url : String)
  | joined (p : Nat)
  | started (p : Nat)
deriving DecidableEq, Repr

inductive FetchResult
  | success (url : String)
  | failure
deriving DecidableEq, Repr

/-- The synchronous prefix of `getPartModelBlobUrl(partId)`:
cache check, pending check, else start the fetch (`fetchCount` counts
network fetches issued) and register the promise. -/
def invokeModel (s : ModelFetchState) (partId : Nat) (now : Nat) :
    ModelFetchState × CallOutcome :=
  let (hit, c1, _) := s.cadModelCache.get partId now
  match hit with
  | some url => ({ s with cadModelCache := c1 }, .cachedHit url)
  | none =>
    match alistGet s.pendingModelRequests partId with
    | some p => ({ s with cadModelCache := c1 }, .joined p)
    | none =>
      ({ s with
          cadModelCache := c1
          pendingModelRequests := alistSet s.pendingModelRequests partId s.nextPromise
          fetchCount := s.fetchCount + 1
          nextPromise := s.nextPromise + 1 },
        .started s.nextPromise)

/-- Settlement of the request body: on success the blob URL is cached
(`cadModelCache.set`), and the `finally` clause removes the pending-map
entry in both cases. -/
def settleModel (s : ModelFetchState) (partId : Nat) (r : FetchResult) (now : Nat) :
    ModelFetchState :=
  match r with
  | .success url =>
    let (c1, _) := s.cadModelCache.set partId url now
    { s with
        cadModelCache := c1
        pendingModelRequests := alistDelete s.pendingModelRequests partId }
  | .failure =>
    { s with pendingModelRequests := alistDelete s.pendingModelRequests partId }

/-- The value a caller ultimately receives: a cache hit resolves
immediately; a held promise resolves to the settled result. -/
def deliver (o : CallOutcome) (settled : FetchResult) : FetchResult :=
  match o with
  | .cachedHit url => .success url
  | .joined _ => settled
  | .started _ => settled

/-- A burst of calls to `getPartModelBlobUrl(partId)` at the given times. -/
def invokeMany (s : ModelFetchState) (partId : Nat) :
    List Nat → ModelFetchState × List CallOutcome
  | [] => (s, [])
  | t :: ts =>
    let (s1, o) := invokeModel s partId t
    let (s2, os) := invokeMany s1 partId ts
    (s2, o :: os)

/-- The module-initialization state: empty cache, empty pending map. -/
def modelFetchInit : ModelFetchState :=
  { cadModelCache := BlobUrlCache.new, pendingModelRequests := [],
    fetchCount := 0, nextPromise := 0 }

/-! ## Blob-handle accounting across the request/cache layer

`getPartFileBlobUrl` (lines 323-342), `getPartDrawingBlobUrl` and
`getPartViewBlobUrl` (lines 467-502) each end in
`return URL.createObjectURL(blob)` without inserting the URL into any
cache; only `getPartModelBlobUrl` stores its URL in `cadModelCache`, and
the `beforeunload` handler (lines 147-151) runs `cadModelCache.clear()`
only.  The trace semantics below records every URL the layer creates and
every URL it revokes. -/

inductive BlobOp
  /-- A successful model fetch settling: creates a URL and caches it. -/
  | modelFetch (partId : Nat) (url : String) (now : Nat)
  /-- A `cadModelCache.get` (revokes the entry if it has expired). -/
  | cacheLookup (partId : Nat) (now : Nat)
  /-- `getPartFileBlobUrl` succeeding: creates a URL, returns it untracked. -/
  | fileFetch (url : String)
  /-- `getPartDrawingBlobUrl` succeeding: creates a URL, untracked. -/
  | drawingFetch (url : String)
  /-- `getPartViewBlobUrl` succeeding: creates a URL, untracked. -/
  | viewFetch (url : String)
  /-- The `beforeunload` handler: `cadModelCache.clear()`. -/
  | unload
deriving DecidableEq, Repr

structure BlobSession where
  cadModelCache : BlobUrlCache
  created : List String
  revoked : List String
deriving DecidableEq, Repr

def blobInit : BlobSession :=
  { cadModelCache := BlobUrlCache.new, created := [], revoked := [] }

def blobStep (s : BlobSession) : BlobOp → BlobSession
  | .modelFetch partId url now =>
    let (c1, rev) := s.cadModelCache.set partId url now
    { cadModelCache := c1, created := s.created ++ [url], revoked := s.revoked ++ rev }
  | .cacheLookup partId now =>
    let (_, c1, rev) := s.cadModelCache.get partId now
    { s with cadModelCache := c1, revoked := s.revoked ++ rev }
  | .fileFetch url => { s with created := s.created ++ [url] }
  | .drawingFetch url => { s with created := s.created ++ [url] }
  | .viewFetch url => { s with created := s.created ++ [url] }
  | .unload =>
    let (c1, rev) := s.cadModelCache.clear
    { s with cadModelCache := c1, revoked := s.revoked ++ rev }

def blobRun (s : BlobSession) (ops : List BlobOp) : BlobSession :=
  ops.foldl blobStep s

/-- Runtime facts about a trace that the browser guarantees:
`URL.createObjectURL` returns a fresh, non-empty URL each time, and a
model fetch only settles for a part id that is not currently cached
(`getPartModelBlobUrl` fetches only after a cache miss, and the pending
map prevents a second concurrent fetch for the same id from settling
while the first one's entry is present). -/
def wfOp (s : BlobSession) : BlobOp → Bool
  | .modelFetch partId url _ =>
    !(decide (url = "")) && !(decide (url ∈ s.created)) &&
      (alistGet s.cadModelCache.cache partId).isNone
  | .fileFetch url => !(decide (url = "")) && !(decide (url ∈ s.created))
  | .drawingFetch url => !(decide (url = "")) && !(decide (url ∈ s.created))
  | .viewFetch url => !(decide (url = "")) && !(decide (url ∈ s.created))
  | .cacheLookup _ _ => true
  | .unload => true

def wfFrom (s : BlobSession) : List BlobOp → Bool
  | [] => true
  | op :: ops => wfOp s op && wfFrom (blobStep s op) ops

/-- The ops arising from the model-cache subsystem alone
(`getPartModelBlobUrl`, cache lookups, and the unload handler). -/
def modelOnly : BlobOp → Bool
  | .modelFetch _ _ _ => true
  | .cacheLookup _ _ => true
  | .unload => true
  | _ => false

/-- The blob URLs currently held by the cache of a session. -/
def BlobSession.cachedUrls (s : BlobSession) : List String :=
  s.cadModelCache.cache.map (·.2.url)

/-! ## Parts and the tab sort machinery (tabs module)

A part record, with the fields the sort/filter code reads.  JS fields that
may be `undefined` (falsy) are embedded as strings with `""` standing for
the absent value, matching every use site, which reads them through
`x || fallback` or optional chaining.  `amount` goes through
`Number(part.amount)`, embedded as an integer. -/

structure Part where
  partId : String := ""
  id : String := ""
  name : String := ""
  assigned : String := ""
  status : String := ""
  subsystem : String := ""
  material : String := ""
  type : String := ""
  file : String := ""
  notes : String := ""
  serviceMethod : String := ""
  amount : Int := 0
deriving DecidableEq, Repr

/-- A value produced by `getSortValue`: a string or a number. -/
inductive SortValue
  | str (s : String)
  | num (n : Int)
deriving DecidableEq, Repr

/-- ```js
function getSortValue(part, key) {
    if (key === "partId") return part.partId || part.id || part.name || "";
    if (key === "name") return part.name || part.partId || part.id || "";
    ...
    if (key === "amount") {
        const amount = Number(part.amount);
        return Number.isFinite(amount) ? amount : 0;
    }
    return part[key] || "";
}
```
`serviceMethod` reads `part.miscInfo?.serviceMethod ||
part.misc_info?.serviceMethod || ""`, embedded as the single
`serviceMethod` field.  The final dynamic `part[key] || ""` is `""` for a
key that is none of the listed fields. -/
def getSortValue (p : Part) (key : String) : SortValue :=
  if key = "partId" then .str (jsOr (jsOr p.partId p.id) p.name)
  else if key = "name" then .str (jsOr (jsOr p.name p.partId) p.id)
  else if key = "assigned" then .str p.assigned
  else if key = "status" then .str p.status
  else if key = "subsystem" then .str p.subsystem
  else if key = "material" then .str p.material
  else if key = "type" then .str p.type
  else if key = "file" then .str p.file
  else if key = "notes" then .str p.notes
  else if key = "serviceMethod" then .str p.serviceMethod
  else if key = "amount" then .num p.amount
  else .str ""

/-- JS `toString()` of a sort value (only strings meet the string branch
in practice, but the embedding keeps the coercion total). -/
def SortValue.asString : SortValue → String
  | .str s => s
  | .num n => toString n

/-- The comparator of `sortParts`:
```js
(a, b) => {
    const valA = getSortValue(a, key);
    const valB = getSortValue(b, key);
    if (typeof valA === "number" && typeof valB === "number") {
        return (valA - valB) * direction;
    }
    const normalizedA = valA.toString().toLowerCase();
    const normalizedB = valB.toString().toLowerCase();
    if (normalizedA < normalizedB) return -1 * direction;
    if (normalizedA > normalizedB) return 1 * direction;
    return 0;
}
``` -/
def partCompare (key : String) (direction : Int) (a b : Part) : Int :=
  match getSortValue a key, getSortValue b key with
  | .num x, .num y => (x - y) * direction
  | va, vb =>
    let na := jsToLower va.asString
    let nb := jsToLower vb.asString
    if strLt na nb then -1 * direction
    else if strLt nb na then 1 * direction
    else 0

/-- The per-category sort state, defaulting to
`\x7b key: null, direction: 1 \x7d`. -/
structure SortState where
  key : Option String
  direction : Int
deriving DecidableEq, Repr

/-- ```js
function updateSortState(category, key) {
    const current = appState.sortState?.[category] || { key: null, direction: 1 };
    let newKey = key;
    let newDirection = 1;
    if (current.key === key) {
        if (current.direction === 1) { newDirection = -1; }
        else if (current.direction === -1) { newKey = null; newDirection = 1; }
    } else { newKey = key; newDirection = 1; }
    appState.sortState[category] = { key: newKey, direction: newDirection };
    ...
}
``` -/
def updateSortState (current : SortState) (key : String) : SortState :=
  if current.key = some key then
    if current.direction = 1 then ⟨some key, -1⟩
    else if current.direction = -1 then ⟨none, 1⟩
    else ⟨some key, 1⟩
  else ⟨some key, 1⟩

/-- ```js
function sortParts(category, key, direction) {
    if (key === null) { return; }
    const parts = appState.parts[category] || [];
    parts.sort((a, b) => { ... });
}
```
`parts.sort` mutates `appState.parts[category]` in place; the embedding
returns the new array contents. -/
def sortParts (key : Option String) (direction : Int) (parts : List Part) : List Part :=
  match key with
  | none => parts
  | some k => stableSort (fun a b => partCompare k direction a b < 0) parts

/-- One `sortTable(category, key)` click: update the sort state, then sort
the stored array in place (the subsequent re-render reads this array). -/
def sortTableStep (s : SortState × List Part) (key : String) : SortState × List Part :=
  let st := updateSortState s.1 key
  (st, sortParts st.key st.direction s.2)

/-! ## The CNC tab render pipeline (cnc.js)

`renderCNC` computes
```js
const prioritized = prioritizeParts(appState.parts.cnc);
const filtered = filterParts(prioritized, appState.searchQuery);
const sorted = applySorting(filtered);
```
and renders `sorted` in order. -/

/-- ```js
const getPriority = (status) => {
    if (status === "In Progress" || status === "Already Started") return 1;
    if (status === "Reviewed") return 2;
    return 3;
};
``` -/
def getPriority (status : String) : Int :=
  if status = "In Progress" || status = "Already Started" then 1
  else if status = "Reviewed" then 2
  else 3

/-- ```js
function prioritizeParts(parts) {
    const cloned = [...parts];
    return cloned.sort((a, b) => getPriority(a.status) - getPriority(b.status));
}
``` -/
def prioritizeParts (parts : List Part) : List Part :=
  stableSort (fun a b => getPriority a.status - getPriority b.status < 0) parts

/-- `filterParts` from the shared helpers module (its source is quoted in
`overviews/frontend/overview.md` in this repository):
```js
export function filterParts(list, searchQuery) {
    if (!searchQuery) return list;
    const lowerQuery = searchQuery.toLowerCase();
    return list.filter((part) => {
        return (
            part.name?.toLowerCase().includes(lowerQuery) ||
            part.id?.toLowerCase().includes(lowerQuery) ||
            part.notes?.toLowerCase().includes(lowerQuery) ||
            part.subsystem?.toLowerCase().includes(lowerQuery) ||
            part.assigned?.toLowerCase().includes(lowerQuery) ||
            part.status?.toLowerCase().includes(lowerQuery)
        );
    });
}
``` -/
def filterParts (list : List Part) (searchQuery : String) : List Part :=
  if searchQuery = "" then list
  else
    let lowerQuery := jsToLower searchQuery
    list.filter (fun part =>
      strContains (jsToLower part.name) lowerQuery ||
      strContains (jsToLower part.id) lowerQuery ||
      strContains (jsToLower part.notes) lowerQuery ||
      strContains (jsToLower part.subsystem) lowerQuery ||
      strContains (jsToLower part.assigned) lowerQuery ||
      strContains (jsToLower part.status) lowerQuery)

/-- The raw field read `a[key] || ""` made by `sortArrayByKey` (a JS
number `0` is falsy, hence the special case for `amount`). -/
def partField (p : Part) (key : String) : String :=
  if key = "partId" then p.partId
  else if key = "id" then p.id
  else if key = "name" then p.name
  else if key = "assigned" then p.assigned
  else if key = "status" then p.status
  else if key = "subsystem" then p.subsystem
  else if key = "material" then p.material
  else if key = "type" then p.type
  else if key = "file" then p.file
  else if key = "notes" then p.notes
  else if key = "serviceMethod" then p.serviceMethod
  else if key = "amount" then (if p.amount = 0 then "" else toString p.amount)
  else ""

/-- `sortArrayByKey` from the shared helpers module (quoted in
`overviews/frontend/overview.md`):
```js
export function sortArrayByKey(array, key, direction = 1) {
    return array.sort((a, b) => {
        let valA = a[key] || "";
        let valB = b[key] || "";
        valA = valA.toString().toLowerCase();
        valB = valB.toString().toLowerCase();
        if (valA < valB) return -1 * direction;
        if (valA > valB) return 1 * direction;
        return 0;
    });
}
``` -/
def sortArrayByKey (array : List Part) (key : String) (direction : Int) : List Part :=
  stableSort (fun a b =>
    let valA := jsToLower (partField a key)
    let valB := jsToLower (partField b key)
    (if strLt valA valB then -1 * direction
     else if strLt valB valA then 1 * direction else 0) < 0)
    array

/-- ```js
function applySorting(parts) {
    const sortState = appState.sortState.cnc;
    if (!sortState || !sortState.key || sortState.key === null) { return parts; }
    const cloned = [...parts];
    return sortArrayByKey(cloned, sortState.key, sortState.direction);
}
``` -/
def applySorting (sortState : SortState) (parts : List Part) : List Part :=
  match sortState.key with
  | none => parts
  | some k => sortArrayByKey parts k sortState.direction

/-- The order in which `renderCNC` lays out the part cards. -/
def renderCNCOrder (parts : List Part) (searchQuery : String) (sortState : SortState) :
    List Part :=
  applySorting sortState (filterParts (prioritizeParts parts) searchQuery)

/-! ## Rate-limited auth check (auth.js, lines 48-77)

```js
let lastAuthCheckTime = 0;
const AUTH_CHECK_COOLDOWN = 2000; // 2 seconds

export async function checkAuthStatus(apiKey) {
    const now = Date.now();
    if (now - lastAuthCheckTime < AUTH_CHECK_COOLDOWN) {
        const remainingTime = AUTH_CHECK_COOLDOWN - (now - lastAuthCheckTime);
        await new Promise((resolve) => setTimeout(resolve, remainingTime));
    }
    lastAuthCheckTime = Date.now();
    try { await apiGet(ENDPOINTS.PARTS.AUTH_CHECK); return true; }
    catch (error) { ... return false; }
}
``` -/

def AUTH_CHECK_COOLDOWN : Nat := 2000

/-- The time at which a call issued at `t`, with `lastAuthCheckTime =
last`, reaches the backend validation (`apiGet`): immediately if the
cooldown has elapsed, else after sleeping out the remaining cooldown, i.e.
at `last + AUTH_CHECK_COOLDOWN`.  (`now - last < 2000` over JS numbers is
`t < last + 2000` over naturals.)  This is also the value stored back into
`lastAuthCheckTime`. -/
def authValidationTime (last t : Nat) : Nat :=
  if t < last + AUTH_CHECK_COOLDOWN then last + AUTH_CHECK_COOLDOWN else t

/-- The validation times of a sequence of `checkAuthStatus` calls issued
at the given times, starting from `lastAuthCheckTime = last`.  Every call
performs exactly one backend validation — none is rejected. -/
def authCheckRun (last : Nat) : List Nat → List Nat
  | [] => []
  | t :: ts =>
    let v := authValidationTime last t
    v :: authCheckRun v ts

/-! ## File upload pre-validation (file-validation module) -/

def ALLOWED_EXTENSIONS : List String := ["step", "stp", "pdf"]

/-- `10 * 1024 * 1024`. -/
def MAX_FILE_SIZE : Nat := 10 * 1024 * 1024

/-- ```js
function getFileExtension(filename) {
    if (!filename || typeof filename !== "string") { return ""; }
    const parts = filename.split(".");
    return parts.length > 1 ? parts[parts.length - 1].toLowerCase() : "";
}
``` -/
def getFileExtension (filename : String) : String :=
  if filename = "" then ""
  else
    let parts := (splitOnChar '.' filename.data).map List.asString
    if parts.length > 1 then jsToLower (parts.getLast?.getD "") else ""

def isFileExtensionAllowed (filename : String) : Bool :=
  ALLOWED_EXTENSIONS.contains (getFileExtension filename)

/-- ```js
export function isFileSizeAllowed(fileSize) {
    return fileSize > 0 && fileSize <= MAX_FILE_SIZE;
}
``` -/
def isFileSizeAllowed (fileSize : Nat) : Bool :=
  0 < fileSize && fileSize ≤ MAX_FILE_SIZE

/-- A candidate `File`: its name and size in bytes. -/
structure JsFile where
  name : String
  size : Nat
deriving DecidableEq, Repr

structure ValidationResult where
  valid : Bool
  error : Option String
deriving DecidableEq, Repr

/-- The extension error message
`Invalid file type. Allowed types: $\x7bALLOWED_EXTENSIONS.join(", ")\x7d`. -/
def invalidTypeMessage : String :=
  "Invalid file type. Allowed types: " ++ String.intercalate ", " ALLOWED_EXTENSIONS

/-- The size error message `File too large. Maximum size: $\x7bmaxSizeMB\x7dMB`
with `maxSizeMB = (MAX_FILE_SIZE / (1024 * 1024)).toFixed(0) = "10"`. -/
def fileTooLargeMessage : String :=
  "File too large. Maximum size: " ++ toString (MAX_FILE_SIZE / (1024 * 1024)) ++ "MB"

/-- ```js
export function validateFile(file) {
    if (!file) { return { valid: false, error: "No file provided" }; }
    if (!isFileExtensionAllowed(file.name)) { return { valid: false, error: `...` }; }
    if (!isFileSizeAllowed(file.size)) { return { valid: false, error: `...` }; }
    return { valid: true, error: null };
}
``` -/
def validateFile (file : Option JsFile) : ValidationResult :=
  match file with
  | none => ⟨false, some "No file provided"⟩
  | some f =>
    if !(isFileExtensionAllowed f.name) then ⟨false, some invalidTypeMessage⟩
    else if !(isFileSizeAllowed f.size) then ⟨false, some fileTooLargeMessage⟩
    else ⟨true, none⟩

/-- Modelled from the spec: the uploading caller (the form handler, which
is not among the repository's source files here — only the validator it
uses is) runs `validateFile` on the candidate file before issuing the
upload request; when validation fails it makes no request and leaves the
part's `file` field unchanged, and when it succeeds it uploads the file,
which records the filename on the part.  Returns the request issued (if
any) and the part's resulting `file` field. -/
def uploadFlow (partFileField : String) (f : JsFile) : Option JsFile × String :=
  if (validateFile (some f)).valid then (some f, f.name) else (none, partFileField)

/-! ## The wipe confirmation gate (wipeActions.js / apiErrorHandler.js)

```js
async function handleWipeNext() {
    if (wipeStep === 1) { wipeStep = 2; ... }
    else if (wipeStep === 2) { wipeStep = 3; ... }
    else if (wipeStep === 3) {
        const input = document.getElementById("wipe-modal-confirm-input");
        const passwordInput = document.getElementById("wipe-modal-password-input");
        if (input?.value === "DELETE" && passwordInput?.value) {
            await executeWipe(passwordInput.value);
        }
    }
}
```
`executeWipe(password)` calls `wipeAllParts(password)`, which does
`apiPost(ENDPOINTS.PARTS.WIPE, { password })`.  A non-empty string is
exactly a truthy `passwordInput.value`. -/

def ENDPOINTS_PARTS_WIPE : String := "/parts/wipe"

/-- A POST request the wipe flow can issue: the endpoint and the
`password` field of its JSON body (the secondary credential). -/
structure WipeRequest where
  endpoint : String
  password : String
deriving DecidableEq, Repr

/-- `wipeAllParts(password)`: `apiPost(ENDPOINTS.PARTS.WIPE, { password })`. -/
def wipeAllParts (password : String) : WipeRequest :=
  ⟨ENDPOINTS_PARTS_WIPE, password⟩

/-- The effect of one `handleWipeNext` click. -/
inductive WipeEffect
  | advance (nextStep : Nat)
  | request (r : WipeRequest)
  | noEffect
deriving DecidableEq, Repr

/-- One click of the wipe modal's next button, given the current step and
the contents of the confirmation-text and password inputs. -/
def handleWipeNext (wipeStep : Nat) (confirmText password : String) : WipeEffect :=
  if wipeStep = 1 then .advance 2
  else if wipeStep = 2 then .advance 3
  else if wipeStep = 3 then
    if confirmText = "DELETE" && !(password = "") then .request (wipeAllParts password)
    else .noEffect
  else .noEffect

/-- A sequence of `set` calls applied to a cache (the state evolution of
`cadModelCache` under insertions alone). -/
def setFold (c : BlobUrlCache) (ops : List (Nat × String × Nat)) : BlobUrlCache :=
  ops.foldl (fun acc op => (acc.set op.1 op.2.1 op.2.2).1) c

/-- The blob-handle accounting invariant of the model-cache subsystem:
cache keys are distinct (a JS `Map`), every cached entry holds a
non-empty URL that the layer created, and every created URL is either
still held by the cache or has been revoked. -/
def GoodSession (s : BlobSession) : Prop :=
  (s.cadModelCache.cache.map (·.1)).Nodup ∧
  (∀ p ∈ s.cadModelCache.cache, p.2.url ≠ "" ∧ p.2.url ∈ s.created) ∧
  (∀ u ∈ s.created, u ∈ s.cachedUrls ∨ u ∈ s.revoked)

/-! ## Helper lemmas about the `Map` embedding -/

theorem alistGet_eq_none {β : Type} {m : List (Nat × β)} {k : Nat}
    (h : alistGet m k = none) : ∀ p ∈ m, p.1 ≠ k := by
  intro p hp hk
  have hfind : m.find? (fun p => p.1 == k) = none := by
    simpa [alistGet] using h
  have := List.find?_eq_none.mp hfind p hp
  simp [hk] at this

theorem alistGet_head {β : Type} (q : Nat × β) (qs : List (Nat × β)) :
    alistGet (q :: qs) q.1 = some q.2 := by
  simp [alistGet, List.find?]

theorem alistGet_mem_nodup {β : Type} {m : List (Nat × β)} {p : Nat × β}
    (hnd : (m.map (·.1)).Nodup) (hp : p ∈ m) : alistGet m p.1 = some p.2 := by
  induction m with
  | nil => cases hp
  | cons q qs ih =>
    rcases List.mem_cons.mp hp with rfl | hp
    · exact alistGet_head p qs
    · have hne : q.1 ≠ p.1 := by
        intro hkey
        have : p.1 ∈ qs.map (·.1) := List.mem_map_of_mem _ hp
        rw [← hkey] at this
        exact (List.nodup_cons.mp (by simpa using hnd)).1 this
      have hrec := ih (List.nodup_cons.mp (by simpa using hnd)).2 hp
      simpa [alistGet, List.find?, (by simpa using hne : (q.1 == p.1) = false)] using hrec

theorem mem_alistDelete {β : Type} {m : List (Nat × β)} {p : Nat × β} {k : Nat} :
    p ∈ alistDelete m k ↔ p ∈ m ∧ p.1 ≠ k := by
  simp [alistDelete, List.mem_filter]

theorem alistDelete_eq_of_absent {β : Type} {m : List (Nat × β)} {k : Nat}
    (h : ∀ p ∈ m, p.1 ≠ k) : alistDelete m k = m := by
  apply List.filter_eq_self.mpr
  intro p hp
  simpa using h p hp

theorem keys_alistDelete_sublist {β : Type} (m : List (Nat × β)) (k : Nat) :
    List.Sublist ((alistDelete m k).map (·.1)) (m.map (·.1)) :=
  (List.filter_sublist m).map _

theorem alistGet_alistDelete {β : Type} (m : List (Nat × β)) (k : Nat) :
    alistGet (alistDelete m k) k = none := by
  simp only [alistGet, Option.map_eq_none']
  apply List.find?_eq_none.mpr
  intro p hp
  have := (mem_alistDelete.mp hp).2
  simpa using this

theorem alistSet_of_absent {β : Type} {m : List (Nat × β)} {k : Nat} {v : β}
    (h : ∀ p ∈ m, p.1 ≠ k) : alistSet m k v = m ++ [(k, v)] := by
  have hany : m.any (fun p => p.1 == k) = false := by
    simp only [List.any_eq_false]
    intro p hp
    simpa using h p hp
  simp [alistSet, hany]

theorem length_alistSet_le {β : Type} (m : List (Nat × β)) (k : Nat) (v : β) :
    (alistSet m k v).length ≤ m.length + 1 := by
  by_cases h : m.any (fun p => p.1 == k) <;> simp [alistSet, h]

/-! ## Stable-sort lemmas -/

theorem mem_stableInsert {α : Type} (lt : α → α → Bool) (x : α) (l : List α) (b : α) :
    b ∈ stableInsert lt x l ↔ b = x ∨ b ∈ l := by
  induction l with
  | nil => simp [stableInsert]
  | cons y ys ih =>
    by_cases h : lt x y
    · simp [stableInsert, h]
    · simp only [stableInsert, h, if_false, Bool.false_eq_true, List.mem_cons, ih]
      tauto

theorem pairwise_stableInsert {α : Type} (lt : α → α → Bool)
    (hasymm : ∀ a b, lt a b = true → lt b a = false)
    (htrans : ∀ a b c, lt a b = true → lt b c = true → lt a c = true)
    (x : α) (l : List α) (hl : l.Pairwise (fun a b => lt b a = false)) :
    (stableInsert lt x l).Pairwise (fun a b => lt b a = false) := by
  induction l with
  | nil => simp [stableInsert]
  | cons y ys ih =>
    rcases List.pairwise_cons.mp hl with ⟨hy, hys⟩
    by_cases h : lt x y
    · simp only [stableInsert, h, if_true]
      refine List.pairwise_cons.mpr ⟨?_, hl⟩
      intro z hz
      rcases List.mem_cons.mp hz with rfl | hz
      · exact hasymm x z h
      · by_contra hzx
        have hzx' : lt z x = true := by simpa using hzx
        have hzy : lt z y = true := htrans z x y hzx' h
        rw [hy z hz] at hzy
        cases hzy
    · simp only [stableInsert, h, if_false]
      refine List.pairwise_cons.mpr ⟨?_, ih hys⟩
      intro z hz
      rcases (mem_stableInsert lt x ys z).mp hz with rfl | hz
      · simpa using h
      · exact hy z hz

theorem pairwise_stableSort {α : Type} (lt : α → α → Bool)
    (hasymm : ∀ a b, lt a b = true → lt b a = false)
    (htrans : ∀ a b c, lt a b = true → lt b c = true → lt a c = true)
    (l : List α) :
    (stableSort lt l).Pairwise (fun a b => lt b a = false) := by
  have key : ∀ (l acc : List α), acc.Pairwise (fun a b => lt b a = false) →
      (l.foldl (fun acc x => stableInsert lt x acc) acc).Pairwise
        (fun a b => lt b a = false) := by
    intro l
    induction l with
    | nil => intro acc h; simpa using h
    | cons x xs ih =>
      intro acc h
      exact ih _ (pairwise_stableInsert lt hasymm htrans x acc h)
  simpa [stableSort] using key l [] (by simp)

theorem prioritizeParts_sorted (parts : List Part) :
    (prioritizeParts parts).Pairwise
      (fun a b => getPriority a.status ≤ getPriority b.status) := by
  unfold prioritizeParts
  refine List.Pairwise.imp ?_ (pairwise_stableSort _ ?_ ?_ parts)
  · intro a b hab
    simp only [decide_eq_false_iff_not] at hab
    omega
  · intro a b hab
    simp only [decide_eq_true_eq] at hab
    simp only [decide_eq_false_iff_not]
    omega
  · intro a b c hab hbc
    simp only [decide_eq_true_eq] at hab hbc
    simp only [decide_eq_true_eq]
    omega

theorem filterParts_sublist (l : List Part) (q : String) :
    List.Sublist (filterParts l q) l := by
  unfold filterParts
  split
  · exact List.Sublist.refl l
  · exact List.filter_sublist l

/-! ## Cache lemmas -/

theorem length_alistDelete_head {β : Type} (hd : Nat × β) (tl : List (Nat × β)) :
    (alistDelete (hd :: tl) hd.1).length ≤ tl.length := by
  unfold alistDelete
  rw [List.filter_cons]
  simp only [bne_self_eq_false, Bool.false_eq_true, if_false]
  exact List.length_filter_le _ tl

theorem set_maxSize (c : BlobUrlCache) (k : Nat) (u : String) (t : Nat) :
    ((c.set k u t).1).maxSize = c.maxSize := by
  by_cases hcap : c.maxSize ≤ c.cache.length
  · cases hh : c.cache.head? with
    | none => simp [BlobUrlCache.set, hcap, hh, BlobUrlCache.revoke]
    | some kv => simp [BlobUrlCache.set, hcap, hh, BlobUrlCache.revoke]
  · simp [BlobUrlCache.set, hcap]

theorem set_cache_length_le (c : BlobUrlCache) (k : Nat) (u : String) (t : Nat)
    (hmax : 1 ≤ c.maxSize) (hlen : c.cache.length ≤ c.maxSize) :
    ((c.set k u t).1).cache.length ≤ c.maxSize := by
  by_cases hcap : c.maxSize ≤ c.cache.length
  · cases hc : c.cache with
    | nil =>
      rw [hc] at hcap
      simp at hcap
      omega
    | cons hd tl =>
      have hh : c.cache.head? = some hd := by rw [hc]; rfl
      have hcache : ((c.set k u t).1).cache = alistSet (alistDelete c.cache hd.1) k ⟨u, t⟩ := by
        simp [BlobUrlCache.set, hcap, hh, BlobUrlCache.revoke]
      rw [hcache]
      have h1 := length_alistSet_le (alistDelete c.cache hd.1) k (⟨u, t⟩ : CacheEntry)
      have h2 : (alistDelete c.cache hd.1).length ≤ tl.length := by
        rw [hc]
        exact length_alistDelete_head hd tl
      have h3 : c.cache.length = tl.length + 1 := by rw [hc]; simp
      omega
  · have hcache : ((c.set k u t).1).cache = alistSet c.cache k ⟨u, t⟩ := by
      simp [BlobUrlCache.set, hcap]
    rw [hcache]
    have h1 := length_alistSet_le c.cache k (⟨u, t⟩ : CacheEntry)
    omega

theorem setFold_length_le (ops : List (Nat × String × Nat)) :
    ∀ c : BlobUrlCache, 1 ≤ c.maxSize → c.cache.length ≤ c.maxSize →
      (setFold c ops).cache.length ≤ (setFold c ops).maxSize ∧
      (setFold c ops).maxSize = c.maxSize := by
  induction ops with
  | nil => intro c _ h2; exact ⟨h2, rfl⟩
  | cons op ops ih =>
    intro c h1 h2
    have hm := set_maxSize c op.1 op.2.1 op.2.2
    have hl := set_cache_length_le c op.1 op.2.1 op.2.2 h1 h2
    have hrec := ih ((c.set op.1 op.2.1 op.2.2).1) (hm ▸ h1) (hm ▸ hl)
    have hstep : setFold c (op :: ops) = setFold ((c.set op.1 op.2.1 op.2.2).1) ops := by
      simp [setFold]
    rw [hstep]
    exact ⟨hrec.1, hrec.2.trans hm⟩

theorem set_at_capacity_evicts (c : BlobUrlCache) (k0 : Nat) (e0 : CacheEntry)
    (rest : List (Nat × CacheEntry)) (k : Nat) (u : String) (t : Nat)
    (hc : c.cache = (k0, e0) :: rest)
    (hlen : c.cache.length = c.maxSize)
    (hnd : (c.cache.map (·.1)).Nodup)
    (hfresh : ∀ p ∈ c.cache, p.1 ≠ k)
    (hurl : e0.url ≠ "") :
    (c.set k u t).1.cache = rest ++ [(k, ⟨u, t⟩)] ∧ (c.set k u t).2 = [e0.url] := by
  have hcap : c.maxSize ≤ c.cache.length := le_of_eq hlen.symm
  have hh : c.cache.head? = some (k0, e0) := by rw [hc]; rfl
  have hget : alistGet c.cache k0 = some e0 := by
    rw [hc]
    exact alistGet_head (k0, e0) rest
  have hk0 : k0 ∉ rest.map (·.1) := by
    rw [hc] at hnd
    exact (List.nodup_cons.mp (by simpa using hnd)).1
  have hdel : alistDelete c.cache k0 = rest := by
    rw [hc]
    unfold alistDelete
    rw [List.filter_cons]
    simp only [bne_self_eq_false, Bool.false_eq_true, if_false]
    apply List.filter_eq_self.mpr
    intro p hp
    have : p.1 ≠ k0 := by
      intro heq
      exact hk0 (heq ▸ List.mem_map_of_mem _ hp)
    simpa using this
  have hset : alistSet rest k (⟨u, t⟩ : CacheEntry) = rest ++ [(k, ⟨u, t⟩)] := by
    apply alistSet_of_absent
    intro p hp
    exact hfresh p (by rw [hc]; exact List.mem_cons_of_mem _ hp)
  constructor
  · simp [BlobUrlCache.set, hcap, hh, BlobUrlCache.revoke, hget, hdel, hset]
  · simp [BlobUrlCache.set, hcap, hh, BlobUrlCache.revoke, hget, hurl]

/-! ## Blob-handle accounting lemmas -/

theorem revoke_cache (c : BlobUrlCache) (k : Nat) :
    (c.revoke k).1.cache = alistDelete c.cache k := rfl

theorem clearKeys_cache_nil (ks : List Nat) :
    ∀ c : BlobUrlCache, (∀ p ∈ c.cache, p.1 ∈ ks) → (clearKeys c ks).1.cache = [] := by
  induction ks with
  | nil =>
    intro c h
    have hnil : c.cache = [] :=
      List.eq_nil_iff_forall_not_mem.mpr (fun p hp => by simpa using h p hp)
    simp [clearKeys, hnil]
  | cons k ks ih =>
    intro c h
    have hstep : (clearKeys c (k :: ks)).1 = (clearKeys (c.revoke k).1 ks).1 := by
      simp [clearKeys]
    rw [hstep]
    apply ih
    intro p hp
    have hmem : p ∈ c.cache ∧ p.1 ≠ k := by
      rw [revoke_cache] at hp
      exact mem_alistDelete.mp hp
    rcases List.mem_cons.mp (h p hmem.1) with heq | hks
    · exact absurd heq hmem.2
    · exact hks

theorem clearKeys_revokes (ks : List Nat) :
    ∀ (c : BlobUrlCache) (p : Nat × CacheEntry),
      (c.cache.map (·.1)).Nodup → p ∈ c.cache → p.1 ∈ ks → p.2.url ≠ "" →
      p.2.url ∈ (clearKeys c ks).2 := by
  induction ks with
  | nil =>
    intro c p _ _ h _
    exact absurd h (List.not_mem_nil _)
  | cons k ks ih =>
    intro c p hnd hp hks hurl
    have hsplit : (clearKeys c (k :: ks)).2
        = (c.revoke k).2 ++ (clearKeys (c.revoke k).1 ks).2 := by
      simp [clearKeys]
    rw [hsplit]
    by_cases hk : p.1 = k
    · have hg : alistGet c.cache k = some p.2 := by
        rw [← hk]
        exact alistGet_mem_nodup hnd hp
      have hrev : (c.revoke k).2 = [p.2.url] := by
        simp [BlobUrlCache.revoke, hg, hurl]
      rw [hrev]
      exact List.mem_append_left _ (by simp)
    · apply List.mem_append_right
      apply ih
      · rw [revoke_cache]
        exact hnd.sublist (keys_alistDelete_sublist c.cache k)
      · rw [revoke_cache]
        exact mem_alistDelete.mpr ⟨hp, hk⟩
      · rcases List.mem_cons.mp hks with heq | hmem
        · exact absurd heq hk
        · exact hmem
      · exact hurl

theorem clear_cache_empty (c : BlobUrlCache) : (c.clear).1.cache = [] := by
  apply clearKeys_cache_nil
  intro p hp
  exact List.mem_map_of_mem _ hp

theorem clear_revokes (c : BlobUrlCache) (p : Nat × CacheEntry)
    (hnd : (c.cache.map (·.1)).Nodup) (hp : p ∈ c.cache) (hurl : p.2.url ≠ "") :
    p.2.url ∈ (c.clear).2 :=
  clearKeys_revokes _ c p hnd hp (List.mem_map_of_mem _ hp) hurl

theorem set_fresh_spec (c : BlobUrlCache) (k : Nat) (u : String) (t : Nat)
    (hnd : (c.cache.map (·.1)).Nodup)
    (hk : ∀ p ∈ c.cache, p.1 ≠ k) :
    (∀ p ∈ c.cache, p ∈ (c.set k u t).1.cache ∨
      (p.2.url ≠ "" → p.2.url ∈ (c.set k u t).2)) ∧
    (∀ p ∈ (c.set k u t).1.cache, p = (k, ⟨u, t⟩) ∨ p ∈ c.cache) ∧
    (k, (⟨u, t⟩ : CacheEntry)) ∈ (c.set k u t).1.cache ∧
    ((c.set k u t).1.cache.map (·.1)).Nodup := by
  by_cases hcap : c.maxSize ≤ c.cache.length
  · cases hc : c.cache with
    | nil =>
      have hcache : (c.set k u t).1.cache = [(k, ⟨u, t⟩)] := by
        have hh : c.cache.head? = none := by rw [hc]; rfl
        simp [BlobUrlCache.set, hcap, hh, hc, alistSet]
      rw [hcache]
      refine ⟨?_, ?_, ?_, ?_⟩
      · intro p hp
        cases hp
      · intro p hp
        left
        simpa using hp
      · simp
      · simp
    | cons hd tl =>
      have hh : c.cache.head? = some hd := by rw [hc]; rfl
      have hget : alistGet c.cache hd.1 = some hd.2 := by
        rw [hc]
        exact alistGet_head hd tl
      have hkhd : hd.1 ∉ tl.map (·.1) := by
        rw [hc] at hnd
        exact (List.nodup_cons.mp (by simpa using hnd)).1
      have hdel : alistDelete c.cache hd.1 = tl := by
        rw [hc]
        unfold alistDelete
        rw [List.filter_cons]
        simp only [bne_self_eq_false, Bool.false_eq_true, if_false]
        apply List.filter_eq_self.mpr
        intro p hp
        have hne : p.1 ≠ hd.1 := by
          intro heq
          exact hkhd (heq ▸ List.mem_map_of_mem _ hp)
        simpa using hne
      have hset : alistSet tl k (⟨u, t⟩ : CacheEntry) = tl ++ [(k, ⟨u, t⟩)] := by
        apply alistSet_of_absent
        intro p hp
        exact hk p (by rw [hc]; exact List.mem_cons_of_mem _ hp)
      have hcache : (c.set k u t).1.cache = tl ++ [(k, ⟨u, t⟩)] := by
        simp [BlobUrlCache.set, hcap, hh, BlobUrlCache.revoke, hget, hdel, hset]
      have hrev : (c.set k u t).2 = if hd.2.url = "" then [] else [hd.2.url] := by
        simp [BlobUrlCache.set, hcap, hh, BlobUrlCache.revoke, hget]
      refine ⟨?_, ?_, ?_, ?_⟩
      · intro p hp
        rcases List.mem_cons.mp hp with rfl | hp
        · right
          intro hurl
          rw [hrev]
          simp [hurl]
        · left
          rw [hcache]
          exact List.mem_append_left _ hp
      · intro p hp
        rw [hcache] at hp
        rcases List.mem_append.mp hp with hp | hp
        · right
          exact List.mem_cons_of_mem _ hp
        · left
          simpa using hp
      · rw [hcache]
        exact List.mem_append_right _ (by simp)
      · rw [hcache]
        have htl : (tl.map (·.1)).Nodup := by
          rw [hc] at hnd
          exact (List.nodup_cons.mp (by simpa using hnd)).2
        have hkn : k ∉ tl.map (·.1) := by
          intro hmem
          rcases List.mem_map.mp hmem with ⟨p, hp, hpk⟩
          exact hk p (by rw [hc]; exact List.mem_cons_of_mem _ hp) hpk
        simp [List.nodup_append, htl, hkn]
  · have hset : alistSet c.cache k (⟨u, t⟩ : CacheEntry) = c.cache ++ [(k, ⟨u, t⟩)] :=
      alistSet_of_absent hk
    have hcache : (c.set k u t).1.cache = c.cache ++ [(k, ⟨u, t⟩)] := by
      simp [BlobUrlCache.set, hcap, hset]
    refine ⟨?_, ?_, ?_, ?_⟩
    · intro p hp
      left
      rw [hcache]
      exact List.mem_append_left _ hp
    · intro p hp
      rw [hcache] at hp
      rcases List.mem_append.mp hp with hp | hp
      · right; exact hp
      · left; simpa using hp
    · rw [hcache]
      exact List.mem_append_right _ (by simp)
    · rw [hcache]
      have hkn : k ∉ c.cache.map (·.1) := by
        intro hmem
        rcases List.mem_map.mp hmem with ⟨p, hp, hpk⟩
        exact hk p hp hpk
      simp [List.nodup_append, hnd, hkn]

theorem goodSession_step (s : BlobSession) (op : BlobOp)
    (hgood : GoodSession s) (hwf : wfOp s op = true) (hmo : modelOnly op = true) :
    GoodSession (blobStep s op) := by
  obtain ⟨hnd, hent, hacc⟩ := hgood
  cases op with
  | fileFetch url => simp [modelOnly] at hmo
  | drawingFetch url => simp [modelOnly] at hmo
  | viewFetch url => simp [modelOnly] at hmo
  | modelFetch partId url now =>
    simp only [wfOp, Bool.and_eq_true, Bool.not_eq_true', decide_eq_false_iff_not,
      Option.isNone_iff_eq_none] at hwf
    obtain ⟨⟨hurl, hnc⟩, hpn⟩ := hwf
    have hk : ∀ p ∈ s.cadModelCache.cache, p.1 ≠ partId := alistGet_eq_none hpn
    obtain ⟨hsub1, hsub2, hmem, hnd'⟩ := set_fresh_spec s.cadModelCache partId url now hnd hk
    rcases hset : s.cadModelCache.set partId url now with ⟨c1, rev⟩
    rw [hset] at hsub1 hsub2 hmem hnd'
    have hstep : blobStep s (.modelFetch partId url now)
        = { cadModelCache := c1, created := s.created ++ [url],
            revoked := s.revoked ++ rev } := by
      simp [blobStep, hset]
    rw [hstep]
    refine ⟨hnd', ?_, ?_⟩
    · intro p hp
      rcases hsub2 p hp with rfl | hpold
      · exact ⟨hurl, by simp⟩
      · have h := hent p hpold
        exact ⟨h.1, List.mem_append_left _ h.2⟩
    · intro v hv
      rcases List.mem_append.mp hv with hv | hv
      · rcases hacc v hv with hcached | hrev
        · rcases List.mem_map.mp hcached with ⟨p, hp, rfl⟩
          rcases hsub1 p hp with hnew | hrevoked
          · left
            exact List.mem_map_of_mem _ hnew
          · right
            exact List.mem_append_right _ (hrevoked (hent p hp).1)
        · right
          exact List.mem_append_left _ hrev
      · have hv' : v = url := by simpa using hv
        subst hv'
        left
        exact List.mem_map_of_mem _ hmem
  | cacheLookup partId now =>
    rcases hget : alistGet s.cadModelCache.cache partId with _ | e
    · have hg : s.cadModelCache.get partId now = (none, s.cadModelCache, []) := by
        simp [BlobUrlCache.get, hget]
      have hstep : blobStep s (.cacheLookup partId now)
          = { cadModelCache := s.cadModelCache, created := s.created,
              revoked := s.revoked ++ [] } := by
        simp [blobStep, hg]
      rw [hstep]
      exact ⟨hnd, hent, by simpa using hacc⟩
    · by_cases hexp : s.cadModelCache.expiryMs + e.timestamp < now
      · have hg : s.cadModelCache.get partId now
            = (none,
               { s.cadModelCache with cache := alistDelete s.cadModelCache.cache partId },
               if e.url = "" then [] else [e.url]) := by
          simp [BlobUrlCache.get, hget, hexp, BlobUrlCache.revoke]
        have hstep : blobStep s (.cacheLookup partId now)
            = { cadModelCache :=
                  { s.cadModelCache with
                      cache := alistDelete s.cadModelCache.cache partId },
                created := s.created,
                revoked := s.revoked ++ (if e.url = "" then [] else [e.url]) } := by
          simp [blobStep, hg]
        rw [hstep]
        refine ⟨hnd.sublist (keys_alistDelete_sublist _ _), ?_, ?_⟩
        · intro p hp
          exact hent p (mem_alistDelete.mp hp).1
        · intro v hv
          rcases hacc v hv with hcached | hrev
          · rcases List.mem_map.mp hcached with ⟨p, hp, rfl⟩
            by_cases hpk : p.1 = partId
            · right
              have hpe : p.2 = e := by
                have h1 := alistGet_mem_nodup hnd hp
                rw [hpk, hget] at h1
                exact (Option.some.inj h1).symm
              have hne := (hent p hp).1
              apply List.mem_append_right
              rw [hpe]
              rw [hpe] at hne
              simp [hne]
            · left
              exact List.mem_map_of_mem _ (mem_alistDelete.mpr ⟨hp, hpk⟩)
          · right
            exact List.mem_append_left _ hrev
      · have hg : s.cadModelCache.get partId now = (some e.url, s.cadModelCache, []) := by
          simp [BlobUrlCache.get, hget, hexp]
        have hstep : blobStep s (.cacheLookup partId now)
            = { cadModelCache := s.cadModelCache, created := s.created,
                revoked := s.revoked ++ [] } := by
          simp [blobStep, hg]
        rw [hstep]
        exact ⟨hnd, hent, by simpa using hacc⟩
  | unload =>
    rcases hclr : s.cadModelCache.clear with ⟨c1, rev⟩
    have hstep : blobStep s .unload
        = { cadModelCache := c1, created := s.created, revoked := s.revoked ++ rev } := by
      simp [blobStep, hclr]
    have hempty : c1.cache = [] := by
      have := clear_cache_empty s.cadModelCache
      rw [hclr] at this
      exact this
    rw [hstep]
    refine ⟨by simp [hempty], by simp [hempty], ?_⟩
    intro v hv
    rcases hacc v hv with hcached | hrev
    · rcases List.mem_map.mp hcached with ⟨p, hp, rfl⟩
      right
      have h := clear_revokes s.cadModelCache p hnd hp (hent p hp).1
      rw [hclr] at h
      exact List.mem_append_right _ h
    · right
      exact List.mem_append_left _ hrev

theorem goodSession_run (ops : List BlobOp) :
    ∀ s : BlobSession, GoodSession s → wfFrom s ops = true →
      (∀ op ∈ ops, modelOnly op = true) → GoodSession (blobRun s ops) := by
  induction ops with
  | nil => intro s hg _ _; exact hg
  | cons op ops ih =>
    intro s hg hwf hmo
    have hwf' : wfOp s op = true ∧ wfFrom (blobStep s op) ops = true := by
      have h := hwf
      simp only [wfFrom, Bool.and_eq_true] at h
      exact h
    obtain ⟨hwf1, hwf2⟩ := hwf'
    have hg1 := goodSession_step s op hg hwf1 (hmo op (List.mem_cons_self _ _))
    have hrun : blobRun s (op :: ops) = blobRun (blobStep s op) ops := by
      simp [blobRun]
    rw [hrun]
    exact ih (blobStep s op) hg1 hwf2 (fun o ho => hmo o (List.mem_cons_of_mem _ ho))

theorem goodSession_init : GoodSession blobInit := by
  refine ⟨by simp [blobInit, BlobUrlCache.new], ?_, ?_⟩
  · intro p hp
    cases hp
  · intro v hv
    cases hv

/-! ## Request de-duplication lemmas -/

theorem invokeModel_joined_of_pending (s : ModelFetchState) (partId p t : Nat)
    (hc : s.cadModelCache.cache = [])
    (hp : alistGet s.pendingModelRequests partId = some p) :
    invokeModel s partId t = (s, .joined p) := by
  have hg : s.cadModelCache.get partId t = (none, s.cadModelCache, []) := by
    unfold BlobUrlCache.get
    rw [hc]
    rfl
  simp [invokeModel, hg, hp]

theorem invokeMany_joined_of_pending (ts : List Nat) (s : ModelFetchState) (partId p : Nat)
    (hc : s.cadModelCache.cache = [])
    (hp : alistGet s.pendingModelRequests partId = some p) :
    invokeMany s partId ts = (s, ts.map (fun _ => .joined p)) := by
  induction ts with
  | nil => rfl
  | cons t ts ih =>
    simp [invokeMany, invokeModel_joined_of_pending s partId p t hc hp, ih]

/-! ## Rate-limiting lemmas -/

theorem le_authValidationTime (last t : Nat) :
    last + AUTH_CHECK_COOLDOWN ≤ authValidationTime last t := by
  unfold authValidationTime
  split <;> omega

theorem authCheckRun_head (last : Nat) (ts : List Nat) :
    ∀ b ∈ (authCheckRun last ts).head?, last + AUTH_CHECK_COOLDOWN ≤ b := by
  cases ts with
  | nil => simp [authCheckRun]
  | cons t ts =>
    intro b hb
    have hbt : authValidationTime last t = b := by simpa [authCheckRun] using hb
    exact hbt ▸ le_authValidationTime last t

theorem authCheckRun_chain (ts : List Nat) :
    ∀ last, List.Chain' (fun v w => v + AUTH_CHECK_COOLDOWN ≤ w) (authCheckRun last ts) := by
  induction ts with
  | nil => intro last; simp [authCheckRun]
  | cons t ts ih =>
    intro last
    have heq : authCheckRun last (t :: ts)
        = authValidationTime last t :: authCheckRun (authValidationTime last t) ts := rfl
    rw [heq]
    exact List.chain'_cons'.mpr ⟨authCheckRun_head _ _, ih _⟩

theorem authCheckRun_length (ts : List Nat) :
    ∀ last, (authCheckRun last ts).length = ts.length := by
  induction ts with
  | nil => intro last; rfl
  | cons t ts ih => intro last; simpa [authCheckRun] using ih _

/-! ## Claim theorems -/

/-- C7: the auth-status check is rate-limited.  Every call in a sequence
performs exactly one backend validation (none is rejected); successive
validation instants are at least one `AUTH_CHECK_COOLDOWN` (2 seconds)
apart, so at most one validation occurs per cooldown window; a check
issued before the cooldown has elapsed is delayed to exactly the end of
the cooldown and then proceeds, while a check issued after it proceeds
immediately. -/
theorem checkAuthStatus_rate_limited :
    (∀ (last : Nat) (ts : List Nat), (authCheckRun last ts).length = ts.length) ∧
    (∀ (last : Nat) (ts : List Nat),
      List.Chain' (fun v w => v + AUTH_CHECK_COOLDOWN ≤ w) (authCheckRun last ts)) ∧
    (∀ last t : Nat, t < last + AUTH_CHECK_COOLDOWN →
      authValidationTime last t = last + AUTH_CHECK_COOLDOWN) ∧
    (∀ last t : Nat, last + AUTH_CHECK_COOLDOWN ≤ t → authValidationTime last t = t) := by
  refine ⟨fun last ts => authCheckRun_length ts last,
    fun last ts => authCheckRun_chain ts last, ?_, ?_⟩
  · intro last t h
    simp [authValidationTime, h]
  · intro last t h
    unfold authValidationTime
    split <;> omega

theorem checkAuthStatus_rate_limited_witness :
    authValidationTime 0 500 = 0 + AUTH_CHECK_COOLDOWN ∧ authValidationTime 0 3000 = 3000 :=
  ⟨checkAuthStatus_rate_limited.2.2.1 0 500 (by decide),
   checkAuthStatus_rate_limited.2.2.2 0 3000 (by decide)⟩

/-- C8: upload pre-validation.  `validateFile` accepts a file only if its
extension (lower-cased) is one of step/stp/pdf and its size is at most
`MAX_FILE_SIZE` (10 MiB); a file with a disallowed extension is rejected
with the file-type validation error, a file exceeding the size limit is
rejected, and in either case the (spec-modelled) uploading caller issues
no request and leaves the part's `file` field unchanged. -/
theorem validateFile_gates_upload :
    (∀ f : JsFile, (validateFile (some f)).valid = true →
      isFileExtensionAllowed f.name = true ∧ f.size ≤ MAX_FILE_SIZE) ∧
    (∀ (f : JsFile) (pf : String), isFileExtensionAllowed f.name = false →
      validateFile (some f) = ⟨false, some invalidTypeMessage⟩ ∧
      uploadFlow pf f = (none, pf)) ∧
    (∀ (f : JsFile) (pf : String), MAX_FILE_SIZE < f.size →
      (validateFile (some f)).valid = false ∧ uploadFlow pf f = (none, pf)) := by
  refine ⟨?_, ?_, ?_⟩
  · intro f h
    by_cases he : isFileExtensionAllowed f.name
    · by_cases hs : isFileSizeAllowed f.size
      · refine ⟨he, ?_⟩
        have := hs
        simp only [isFileSizeAllowed, Bool.and_eq_true, decide_eq_true_eq] at this
        exact this.2
      · simp [validateFile, he, hs] at h
    · simp [validateFile, he] at h
  · intro f pf he
    constructor
    · simp [validateFile, he]
    · simp [uploadFlow, validateFile, he]
  · intro f pf hs
    have hsz : isFileSizeAllowed f.size = false := by
      simp only [isFileSizeAllowed, Bool.and_eq_false_iff]
      right
      simpa using Nat.not_le.mpr hs
    by_cases he : isFileExtensionAllowed f.name
    · exact ⟨by simp [validateFile, he, hsz], by simp [uploadFlow, validateFile, he, hsz]⟩
    · exact ⟨by simp [validateFile, he], by simp [uploadFlow, validateFile, he]⟩

theorem validateFile_gates_upload_witness :
    (validateFile (some ⟨"virus.exe", 5⟩) = ⟨false, some invalidTypeMessage⟩ ∧
      uploadFlow "old.step" ⟨"virus.exe", 5⟩ = (none, "old.step")) ∧
    ((validateFile (some ⟨"big.step", 10485761⟩)).valid = false ∧
      uploadFlow "old.step" ⟨"big.step", 10485761⟩ = (none, "old.step")) :=
  ⟨validateFile_gates_upload.2.1 ⟨"virus.exe", 5⟩ "old.step" (by decide),
   validateFile_gates_upload.2.2 ⟨"big.step", 10485761⟩ "old.step" (by decide)⟩

/-- C9: the destructive wipe request is gated.  `handleWipeNext` issues a
wipe request exactly when it is on the final step, the confirmation text
equals `"DELETE"` and the password input is non-empty, and the request it
then issues is a POST to `/parts/wipe` carrying that password as the
secondary credential; under any other input state no wipe request is
produced. -/
theorem handleWipeNext_requires_credentials :
    (∀ (step : Nat) (text pw : String) (r : WipeRequest),
      handleWipeNext step text pw = .request r →
        step = 3 ∧ text = "DELETE" ∧ pw ≠ "" ∧ r = ⟨ENDPOINTS_PARTS_WIPE, pw⟩) ∧
    (∀ pw : String, pw ≠ "" →
      handleWipeNext 3 "DELETE" pw = .request ⟨"/parts/wipe", pw⟩) := by
  constructor
  · intro step text pw r h
    unfold handleWipeNext at h
    split_ifs at h with h1 h2 h3 h4
    simp only [Bool.and_eq_true, decide_eq_true_eq, Bool.not_eq_true',
      decide_eq_false_iff_not] at h4
    injection h with hr
    exact ⟨h3, h4.1, h4.2, hr.symm⟩
  · intro pw hpw
    simp [handleWipeNext, wipeAllParts, ENDPOINTS_PARTS_WIPE, hpw]

theorem handleWipeNext_requires_credentials_witness :
    handleWipeNext 3 "DELETE" "hunter2" = .request ⟨"/parts/wipe", "hunter2"⟩ :=
  handleWipeNext_requires_credentials.2 "hunter2" (by decide)

/-- C10: a zero-byte file is always rejected even with an allowed
extension, because `isFileSizeAllowed` requires the size to be strictly
positive; `validateFile` then reports the size-limit error message. -/
theorem validateFile_rejects_zero_byte (name : String)
    (h : isFileExtensionAllowed name = true) :
    validateFile (some ⟨name, 0⟩) = ⟨false, some fileTooLargeMessage⟩ ∧
    isFileSizeAllowed 0 = false := by
  constructor
  · simp [validateFile, h, isFileSizeAllowed]
  · rfl

theorem validateFile_rejects_zero_byte_witness :
    validateFile (some ⟨"part.step", 0⟩) = ⟨false, some fileTooLargeMessage⟩ :=
  (validateFile_rejects_zero_byte "part.step" (by decide)).1

/-- C5 (amended): repeated activation of the sort control for one field
cycles the sort state through exactly three states — ascending, then
descending, then unsorted — and a different field starts a new cycle at
ascending; in the unsorted (third) state `sortParts` applies no sort, so
the stored parts array keeps the order left by the preceding descending
pass (it is not restored to its original insertion order — see the
counterexample). -/
theorem sortTable_three_state_cycle (parts : List Part) (k k' : String) :
    updateSortState ⟨none, 1⟩ k = ⟨some k, 1⟩ ∧
    updateSortState ⟨some k, 1⟩ k = ⟨some k, -1⟩ ∧
    updateSortState ⟨some k, -1⟩ k = ⟨none, 1⟩ ∧
    (k' ≠ k → updateSortState ⟨some k, 1⟩ k' = ⟨some k', 1⟩ ∧
              updateSortState ⟨some k, -1⟩ k' = ⟨some k', 1⟩) ∧
    (sortTableStep (sortTableStep (sortTableStep (⟨none, 1⟩, parts) k) k) k).1 = ⟨none, 1⟩ ∧
    (sortTableStep (sortTableStep (sortTableStep (⟨none, 1⟩, parts) k) k) k).2 =
      (sortTableStep (sortTableStep (⟨none, 1⟩, parts) k) k).2 := by
  refine ⟨by simp [updateSortState], by simp [updateSortState], by simp [updateSortState],
    ?_, ?_, ?_⟩
  · intro hne
    constructor <;> simp [updateSortState, Ne.symm hne]
  · simp [sortTableStep, updateSortState, sortParts]
  · simp [sortTableStep, updateSortState, sortParts]

theorem sortTable_three_state_cycle_witness :
    updateSortState ⟨some "name", 1⟩ "status" = ⟨some "status", 1⟩ :=
  ((sortTable_three_state_cycle [] "name" "status").2.2.2.1 (by decide)).1

/-- C4 (amended): the model-cache subsystem leaks no handles — in any
well-formed run of model fetches, cache lookups and unloads, every blob
URL the subsystem created is either held in `cadModelCache` or has been
revoked, and once the session is torn down (`unload` runs
`cadModelCache.clear()`) every such URL has been revoked.  The blob URLs
returned by the file, drawing and view fetches, however, are handed to
the caller untracked: the layer neither caches nor revokes them (see the
counterexample), so the claim's "no handle outlives the session
unreleased" holds only for the model fetches. -/
theorem blob_handles_model_subsystem (ops : List BlobOp)
    (hwf : wfFrom blobInit ops = true)
    (hmo : ∀ op ∈ ops, modelOnly op = true) :
    (∀ u ∈ (blobRun blobInit ops).created,
      u ∈ (blobRun blobInit ops).cachedUrls ∨ u ∈ (blobRun blobInit ops).revoked) ∧
    (∀ u ∈ (blobRun blobInit (ops ++ [BlobOp.unload])).created,
      u ∈ (blobRun blobInit (ops ++ [BlobOp.unload])).revoked) := by
  have hg := goodSession_run ops blobInit goodSession_init hwf hmo
  constructor
  · exact hg.2.2
  · have hr : blobRun blobInit (ops ++ [BlobOp.unload])
        = blobStep (blobRun blobInit ops) .unload := by
      simp [blobRun]
    have hg2 : GoodSession (blobStep (blobRun blobInit ops) .unload) :=
      goodSession_step _ _ hg rfl rfl
    rw [hr]
    intro u hu
    rcases hg2.2.2 u hu with hc | hrev
    · exfalso
      have hempty : (blobStep (blobRun blobInit ops) .unload).cadModelCache.cache = [] := by
        rcases hclr : (blobRun blobInit ops).cadModelCache.clear with ⟨c1, rev⟩
        have h := clear_cache_empty (blobRun blobInit ops).cadModelCache
        rw [hclr] at h
        simpa [blobStep, hclr] using h
      rw [BlobSession.cachedUrls, hempty] at hc
      cases hc
    · exact hrev

theorem blob_handles_model_subsystem_witness :
    "blob:m1" ∈ (blobRun blobInit
      ([BlobOp.modelFetch 1 "blob:m1" 0] ++ [BlobOp.unload])).revoked := by
  have h := blob_handles_model_subsystem [BlobOp.modelFetch 1 "blob:m1" 0]
    (by decide) (by decide)
  exact h.2 "blob:m1" (by decide)

/-- C4 (counterexample): `getPartFileBlobUrl` ends in
`return URL.createObjectURL(blob)` without inserting the URL into any
cache, and the unload handler clears only `cadModelCache` — so after a
file fetch and the session teardown, the created URL is neither held in
the cache nor revoked: a handle has outlived the session unreleased,
refuting the claim. -/
theorem fileFetch_handle_leaks :
    wfFrom blobInit [.fileFetch "blob:f1", .unload] = true ∧
    "blob:f1" ∈ (blobRun blobInit [.fileFetch "blob:f1", .unload]).created ∧
    "blob:f1" ∉ (blobRun blobInit [.fileFetch "blob:f1", .unload]).cachedUrls ∧
    "blob:f1" ∉ (blobRun blobInit [.fileFetch "blob:f1", .unload]).revoked := by
  refine ⟨?_, ?_, ?_, ?_⟩ <;> decide

/-- C1: in-flight request de-duplication in `getPartModelBlobUrl`.
From the initial state, a first call for a part id starts the single
network fetch (promise 0); every further concurrent call for the same id
— issued while the request is pending, at arbitrary times — receives the
very same pending promise and starts no fetch (the fetch count stays 1);
all callers are delivered the promise's one settled result (success or
failure alike); and settling removes the pending-map entry. -/
theorem getPartModelBlobUrl_dedup (partId t0 : Nat) (ts : List Nat)
    (r : FetchResult) (now : Nat) :
    (invokeModel modelFetchInit partId t0).2 = .started 0 ∧
    (invokeMany (invokeModel modelFetchInit partId t0).1 partId ts).2
      = ts.map (fun _ => .joined 0) ∧
    (invokeMany (invokeModel modelFetchInit partId t0).1 partId ts).1.fetchCount = 1 ∧
    (∀ o ∈ (invokeModel modelFetchInit partId t0).2
        :: (invokeMany (invokeModel modelFetchInit partId t0).1 partId ts).2,
      deliver o r = r) ∧
    alistGet (settleModel
        (invokeMany (invokeModel modelFetchInit partId t0).1 partId ts).1
        partId r now).pendingModelRequests partId = none := by
  have h1 : invokeModel modelFetchInit partId t0
      = ({ cadModelCache := BlobUrlCache.new,
           pendingModelRequests := [(partId, 0)], fetchCount := 1, nextPromise := 1 },
         .started 0) := by
    simp [invokeModel, modelFetchInit, BlobUrlCache.get, BlobUrlCache.new, alistGet, alistSet]
  have hc : (invokeModel modelFetchInit partId t0).1.cadModelCache.cache = [] := by
    rw [h1]
    rfl
  have hp : alistGet (invokeModel modelFetchInit partId t0).1.pendingModelRequests partId
      = some 0 := by
    rw [h1]
    simp [alistGet]
  have h2 := invokeMany_joined_of_pending ts (invokeModel modelFetchInit partId t0).1 partId 0
    hc hp
  refine ⟨by rw [h1], by rw [h2], ?_, ?_, ?_⟩
  · rw [h2, h1]
  · intro o ho
    rcases List.mem_cons.mp ho with rfl | ho
    · rw [h1]
      rfl
    · rw [h2] at ho
      rcases List.mem_map.mp ho with ⟨t, _, rfl⟩
      rfl
  · rw [h2, h1]
    cases r <;> simp [settleModel, alistGet_alistDelete]

/-- C3: cache entries expire after the fixed TTL of 30 minutes
(`CACHE_EXPIRY_MS`, used by the default `BlobUrlCache` constructor).  A
`get` of an entry whose age exceeds the TTL returns `null`, removes the
entry from the cache, and releases its blob handle; and `get` never
returns a URL whose entry has exceeded the TTL. -/
theorem blobCache_expiry :
    CACHE_EXPIRY_MS = 30 * 60 * 1000 ∧
    BlobUrlCache.new.expiryMs = CACHE_EXPIRY_MS ∧
    (∀ (c : BlobUrlCache) (k now : Nat) (e : CacheEntry),
      alistGet c.cache k = some e → c.expiryMs + e.timestamp < now →
      (c.get k now).1 = none ∧
      alistGet (c.get k now).2.1.cache k = none ∧
      (e.url ≠ "" → (c.get k now).2.2 = [e.url])) ∧
    (∀ (c : BlobUrlCache) (k now : Nat) (url : String),
      (c.get k now).1 = some url →
      ∃ e : CacheEntry, alistGet c.cache k = some e ∧ e.url = url ∧
        ¬ c.expiryMs + e.timestamp < now) := by
  refine ⟨rfl, rfl, ?_, ?_⟩
  · intro c k now e hget hexp
    have hga : c.get k now
        = (none, { c with cache := alistDelete c.cache k },
           if e.url = "" then [] else [e.url]) := by
      simp [BlobUrlCache.get, hget, hexp, BlobUrlCache.revoke]
    refine ⟨by rw [hga], ?_, ?_⟩
    · rw [hga]
      exact alistGet_alistDelete c.cache k
    · intro hurl
      rw [hga]
      simp [hurl]
  · intro c k now url hget
    unfold BlobUrlCache.get at hget
    cases hga : alistGet c.cache k with
    | none => rw [hga] at hget; cases hget
    | some e =>
      rw [hga] at hget
      by_cases hexp : c.expiryMs + e.timestamp < now
      · simp [hexp] at hget
      · simp only [hexp, if_false] at hget
        have hurl : e.url = url := by simpa using hget
        exact ⟨e, rfl, hurl, hexp⟩

theorem blobCache_expiry_witness :
    ((⟨[(1, ⟨"blob:u1", 0⟩)], 50, 1000⟩ : BlobUrlCache).get 1 1001).1 = none ∧
    ((⟨[(1, ⟨"blob:u1", 0⟩)], 50, 1000⟩ : BlobUrlCache).get 1 1001).2.2 = ["blob:u1"] := by
  have h := blobCache_expiry.2.2.1 (⟨[(1, ⟨"blob:u1", 0⟩)], 50, 1000⟩ : BlobUrlCache)
    1 1001 ⟨"blob:u1", 0⟩ (by decide) (by decide)
  exact ⟨h.1, h.2.2 (by decide)⟩

/-- C2: the blob-URL cache is bounded.  Any sequence of `set` operations
applied to the default cache leaves at most `MAX_CACHE_SIZE` (50)
entries; and a `set` of a fresh key when the cache is at capacity evicts
exactly the oldest-inserted entry — releasing its blob handle in the
eviction step that precedes the insertion — and appends the new entry. -/
theorem blobCache_bounded :
    (∀ ops : List (Nat × String × Nat),
      (setFold BlobUrlCache.new ops).cache.length ≤ MAX_CACHE_SIZE) ∧
    (∀ (c : BlobUrlCache) (k0 : Nat) (e0 : CacheEntry) (rest : List (Nat × CacheEntry))
        (k : Nat) (u : String) (t : Nat),
      c.cache = (k0, e0) :: rest → c.cache.length = c.maxSize →
      (c.cache.map (·.1)).Nodup → (∀ p ∈ c.cache, p.1 ≠ k) → e0.url ≠ "" →
      (c.set k u t).1.cache = rest ++ [(k, ⟨u, t⟩)] ∧ (c.set k u t).2 = [e0.url]) := by
  constructor
  · intro ops
    have h := setFold_length_le ops BlobUrlCache.new (by decide) (by decide)
    calc (setFold BlobUrlCache.new ops).cache.length
        ≤ (setFold BlobUrlCache.new ops).maxSize := h.1
      _ = MAX_CACHE_SIZE := h.2
  · exact set_at_capacity_evicts

theorem blobCache_bounded_witness :
    ((⟨[(1, ⟨"blob:u1", 0⟩), (2, ⟨"blob:u2", 3⟩)], 2, 1000⟩ : BlobUrlCache).set
        3 "blob:u3" 7).1.cache
      = [(2, ⟨"blob:u2", 3⟩), (3, ⟨"blob:u3", 7⟩)] ∧
    ((⟨[(1, ⟨"blob:u1", 0⟩), (2, ⟨"blob:u2", 3⟩)], 2, 1000⟩ : BlobUrlCache).set
        3 "blob:u3" 7).2
      = ["blob:u1"] :=
  blobCache_bounded.2 (⟨[(1, ⟨"blob:u1", 0⟩), (2, ⟨"blob:u2", 3⟩)], 2, 1000⟩ : BlobUrlCache)
    1 ⟨"blob:u1", 0⟩ [(2, ⟨"blob:u2", 3⟩)] 3 "blob:u3" 7
    rfl (by decide) (by decide) (by decide) (by decide)

/-- C6 (amended): `renderCNC` always applies the priority pre-sort before
filtering and the user-selected sort.  When no user sort key is active
the rendered order is nondecreasing in the fixed priority
(in-progress/already-started first, then reviewed, then other).  When a
user sort key is active, the pre-sort is still applied and still affects
the rendered order: the stable user sort keeps the priority order among
parts whose sort-key values tie, as the concrete second conjunct shows
(two parts tie on `name`, and the later-inserted in-progress part renders
first). -/
theorem renderCNC_priority_presort :
    (∀ (parts : List Part) (q : String),
      (renderCNCOrder parts q ⟨none, 1⟩).Pairwise
        (fun a b => getPriority a.status ≤ getPriority b.status)) ∧
    (renderCNCOrder
        [({ name := "x", status := "Pending" } : Part),
         { name := "x", status := "In Progress" }] "" ⟨some "name", 1⟩
      = [({ name := "x", status := "In Progress" } : Part),
         { name := "x", status := "Pending" }]) := by
  constructor
  · intro parts q
    have hs := prioritizeParts_sorted parts
    have hsub := filterParts_sublist (prioritizeParts parts) q
    have hp := hs.sublist hsub
    simpa [renderCNCOrder, applySorting] using hp
  · decide

/-- C6 (counterexample): with a user sort key active, the rendered CNC
order differs from the order obtained without the priority pre-sort on
the same input — the pre-sort is applied (and observable) even when a
user sort key is active, contrary to the claim. -/
theorem renderCNC_presort_not_skipped :
    renderCNCOrder
        [({ name := "x", status := "Pending" } : Part),
         { name := "x", status := "In Progress" }] "" ⟨some "name", 1⟩
      = [({ name := "x", status := "In Progress" } : Part),
         { name := "x", status := "Pending" }] ∧
    applySorting ⟨some "name", 1⟩
        (filterParts
          [({ name := "x", status := "Pending" } : Part),
           { name := "x", status := "In Progress" }] "")
      = [({ name := "x", status := "Pending" } : Part),
         { name := "x", status := "In Progress" }] ∧
    [({ name := "x", status := "In Progress" } : Part),
     { name := "x", status := "Pending" }]
      ≠ [({ name := "x", status := "Pending" } : Part),
         { name := "x", status := "In Progress" }] := by
  refine ⟨?_, ?_, ?_⟩ <;> decide

/-- C5 (counterexample): after ascending and descending passes on `name`,
the third activation (unsorted state) leaves the stored array in the
descending order — it is not restored to the original insertion order
`["b", "c", "a"]`. -/
theorem sortTable_unsorted_keeps_descending_order :
    ((sortTableStep (sortTableStep (sortTableStep
        (⟨none, 1⟩, [({ name := "b" } : Part), { name := "c" }, { name := "a" }])
        "name") "name") "name").2
      = [({ name := "c" } : Part), { name := "b" }, { name := "a" }]) ∧
    [({ name := "c" } : Part), { name := "b" }, { name := "a" }]
      ≠ [({ name := "b" } : Part), { name := "c" }, { name := "a" }] := by
  decide

end Aerie
